import Mathlib

/-!
Shallow embedding of the moldova template engine (Go).

The embedding follows the source file that defines the current library
(`BuildCallstack`, `Callstack.Write`, `optionsToMap`, `resolveWord` and the
per-command generators).  Pure Go functions become Lean functions; the
mutable `objectCache` map and the process-wide random source become explicit
state passing over a `GState` record together with a random oracle `Rng`.
Go `int` is modelled as `Int` with explicit 64-bit wrap-around (`w64`) at the
arithmetic operations where overflow can occur; Go `float64` is modelled as
exact rationals (`Rat`) — the claims about floats only concern order
relations between generated values and their bounds, never rounding.
A Go runtime panic (e.g. `rand.Intn(0)`, index out of range) is a distinct
outcome `Res.crash`, separate from returned `error` values (`Res.failed`).
-/

set_option maxHeartbeats 1000000

namespace Moldova

/-! ## Outcomes and errors

The Go code returns `(value, error)` pairs and can additionally panic.
`GenError` tags each distinct error-return site of the source with the name
the specification's error taxonomy gives to that class of failure. -/

inductive GenError where
  /-- render-time: back-reference to a position not yet produced in the pass -/
  | ordinalError (cmd : String) (ord : Int)
  /-- render-time: lower bound greater than upper bound -/
  | rangeError (cmd : String)
  /-- render-time: an option value failed to parse as its expected type -/
  | invalidArgument (which : String)
  /-- render-time: `time.LoadLocation` failed for the zone name -/
  | zoneError (zone : String)
  /-- render-time: `unicode` length option not greater than zero -/
  | lengthError
  deriving DecidableEq, Repr

/-- Outcome of running an embedded Go computation: a normal return, an
`error` return, or a runtime panic. -/
inductive Res (α : Type) where
  | ok (a : α)
  | failed (e : GenError)
  | crash (msg : String)
  deriving DecidableEq, Repr

/-! ## String helpers (models of the Go standard library functions used) -/

/-- Model of `strings.Split(s, "|")` restricted to a one-character separator:
splits at every occurrence of `sep`; `""` splits to `[""]`. -/
def splitChar (s : String) (sep : Char) : List String :=
  go s.toList ""
where
  go : List Char → String → List String
    | [], acc => [acc]
    | c :: cs, acc => if c = sep then acc :: go cs "" else go cs (acc.push c)

/-- Model of `strings.SplitN(s, ":", 2)`: the part before the first `sep`,
and `some` remainder when `sep` occurs (further separators kept verbatim). -/
def splitFirst (s : String) (sep : Char) : String × Option String :=
  go s.toList ""
where
  go : List Char → String → String × Option String
    | [], acc => (acc, none)
    | c :: cs, acc =>
      if c = sep then (acc, some (String.mk cs)) else go cs (acc.push c)

/-- Digits of a character list interpreted in base 10. -/
def digitsVal (cs : List Char) : Nat :=
  cs.foldl (fun a c => a * 10 + (c.toNat - 48)) 0

/-- Digits-with-sign part of the `strconv.Atoi` model. -/
def goAtoiSigned (sign : Int) (ds : List Char) : Option Int :=
  if ds = [] then none
  else if ds.all Char.isDigit then
    if -(2 ^ 63) ≤ sign * (digitsVal ds : Int) ∧ sign * (digitsVal ds : Int) < 2 ^ 63
    then some (sign * (digitsVal ds : Int)) else none
  else none

/-- Model of `strconv.Atoi` on a 64-bit platform: optional sign, at least one
digit, nothing else, and the value must fit in `int64` (Go reports an
out-of-range error, which the callers treat like any parse failure). -/
def goAtoi (s : String) : Option Int :=
  match s.toList with
  | '+' :: r => goAtoiSigned 1 r
  | '-' :: r => goAtoiSigned (-1) r
  | r => goAtoiSigned 1 r

/-- Model of `strconv.ParseFloat(s, 64)` over exact rationals: optional sign,
decimal digits with an optional fractional part (at least one digit in the
mantissa) and an optional decimal exponent.  The special forms accepted by Go
(`Inf`, `NaN`, hexadecimal floats) and the overflow-to-infinity behaviour are
outside the fragment the program's templates use and are not modelled. -/
def goParseFloat (s : String) : Option ℚ :=
  let p : ℚ × List Char :=
    match s.toList with
    | '+' :: r => (1, r)
    | '-' :: r => (-1, r)
    | r => (1, r)
  match mantissa p.2 with
  | none => none
  | some (m, rest) =>
    match rest with
    | [] => some (p.1 * m)
    | e :: r =>
      if e = 'e' ∨ e = 'E' then
        let q : Int × List Char :=
          match r with
          | '+' :: r2 => (1, r2)
          | '-' :: r2 => (-1, r2)
          | r2 => (1, r2)
        if q.2 ≠ [] ∧ q.2.all Char.isDigit then
          some (p.1 * m * (10 : ℚ) ^ (q.1 * (digitsVal q.2 : Int)))
        else none
      else none
where
  /-- Parses `digits[.digits]` requiring at least one digit overall;
  returns the value and the unconsumed characters. -/
  mantissa (cs : List Char) : Option (ℚ × List Char) :=
    let ip := cs.takeWhile Char.isDigit
    let rest1 := cs.dropWhile Char.isDigit
    match rest1 with
    | '.' :: r =>
      let fp := r.takeWhile Char.isDigit
      let rest2 := r.dropWhile Char.isDigit
      if ip = [] ∧ fp = [] then none
      else some ((digitsVal ip : ℚ) + (digitsVal fp : ℚ) / (10 : ℚ) ^ fp.length, rest2)
    | _ =>
      if ip = [] then none else some ((digitsVal ip : ℚ), rest1)

/-- Wrap-around of Go 64-bit signed integer arithmetic. -/
def w64 (x : Int) : Int := (x + 2 ^ 63) % 2 ^ 64 - 2 ^ 63

/-- ASCII model of `strings.ToUpper`. -/
def goToUpper (s : String) : String := s.map Char.toUpper

/-- ASCII model of `strings.ToLower`. -/
def goToLower (s : String) : String := s.map Char.toLower

/-! ## Option mappings

`cmdOptions` is a Go `map[string]string`; it is modelled as an association
list with replace-on-write update, read through `optGet` which returns the
Go zero value `""` for a missing key. -/

/-- Resolved option mapping of one token (`cmdOptions` in the source). -/
abbrev Opts := List (String × String)

/-- Map read, `m[k]`: the Go zero value `""` when the key is absent. -/
def optGet (m : Opts) (k : String) : String :=
  match List.find? (fun p => p.1 = k) m with
  | some p => p.2
  | none => ""

/-- Map write, `m[k] = v`: replaces an existing binding, else appends. -/
def optSet (m : Opts) (k v : String) : Opts :=
  if (List.any m (fun p => p.1 = k)) then
    List.map (fun p => if p.1 = k then (k, v) else p) m
  else m ++ [(k, v)]

/-- Embedding of `cmdOptions.getInt`: `strconv.Atoi(cmd[n])`. -/
def getIntOpt (m : Opts) (n : String) : Option Int := goAtoi (optGet m n)

/-- Embedding of `cmdOptions.getFloat`: `strconv.ParseFloat(cmd[n], 64)`. -/
def getFloatOpt (m : Opts) (n : String) : Option ℚ := goParseFloat (optGet m n)

/-- Modelled from the spec: the `English` language constant lives in the
`data` package, which is absent from `src/` except for the time formats; the
spec only requires a single baseline language key. -/
def English : String := "english"

/-- Embedding of the `defaultOptions` table. -/
def defaultOptions : List (String × Opts) :=
  [ ("guid", [("ordinal", "-1")])
  , ("now", [("ordinal", "-1"), ("format", "simple"), ("zone", "UTC")])
  , ("time", [("ordinal", "-1"), ("format", "simple"), ("min", "0"),
      ("max", "1455512165"), ("zone", "UTC")])
  , ("int", [("min", "0"), ("max", "100"), ("ordinal", "-1")])
  , ("float", [("min", "0.0"), ("max", "100.0"), ("ordinal", "-1")])
  , ("ascii", [("length", "2"), ("case", "down"), ("ordinal", "-1")])
  , ("unicode", [("length", "2"), ("case", "down"), ("ordinal", "-1")])
  , ("country", [("ordinal", "-1"), ("case", "up")])
  , ("firstname", [("ordinal", "-1"), ("language", English)])
  , ("lastname", [("ordinal", "-1"), ("language", English)]) ]

/-- Embedding of `optionsToMap`.  A `key:value` segment without a `:` makes
the Go code index `opt[1]` on a one-element slice, a runtime panic. -/
def optionsToMap (name : String) (options : String) : Res Opts :=
  let parts := splitChar options '|'
  let m := match List.find? (fun p => p.1 = name) defaultOptions with
    | some d => d.2
    | none => []
  if options.length = 0 then .ok m
  else apply parts m
where
  apply : List String → Opts → Res Opts
    | [], m => .ok m
    | p :: ps, m =>
      match splitFirst p ':' with
      | (k, some v) => apply ps (optSet m k v)
      | (_, none) => .crash "index out of range"

/-! ## Compiled render steps and the template scanner -/

/-- A compiled render step: the Go code pushes closures onto the callstack;
each closure either writes a fixed string or resolves one token with its
captured command name and resolved options. -/
inductive Step where
  | literal (s : String)
  | invocation (word : String) (opts : Opts)
  deriving DecidableEq

/-- State of the single-pass scanner inside `BuildCallstack`: the steps
pushed so far, the character accumulator `wordBuffer`, and the `foundWord`
flag. -/
structure ScanSt where
  steps : List Step
  buf : String
  inWord : Bool
  deriving DecidableEq

/-- Embedding of the `}`-handler of `BuildCallstack`: split the buffered word
at its first `:` into command name and raw options, resolve the options, and
form the invocation step. -/
def mkStep (w : String) : Res Step :=
  let p := splitFirst w ':'
  let rawOpts := match p.2 with
    | some r => r
    | none => ""
  match optionsToMap p.1 rawOpts with
  | .ok opts => .ok (.invocation p.1 opts)
  | .failed e => .failed e
  | .crash m => .crash m

/-- One iteration of the scanning loop of `BuildCallstack`. -/
def scanChar (st : ScanSt) (c : Char) : Res ScanSt :=
  if st.inWord = false ∧ c = '{' then
    .ok ⟨st.steps ++ [.literal st.buf], "", true⟩
  else if st.inWord = true ∧ c = '}' then
    match mkStep st.buf with
    | .ok s => .ok ⟨st.steps ++ [s], "", false⟩
    | .failed e => .failed e
    | .crash m => .crash m
  else
    .ok ⟨st.steps, st.buf.push c, st.inWord⟩

/-- The scanning loop of `BuildCallstack` over the template's characters. -/
def scanAll : List Char → ScanSt → Res ScanSt
  | [], st => .ok st
  | c :: cs, st =>
    match scanChar st c with
    | .ok st2 => scanAll cs st2
    | .failed e => .failed e
    | .crash m => .crash m

/-- The compiled `Callstack`: the ordered steps plus the `cache` field the
struct carries (`nil` before the first `Write` call). -/
structure Callstack0 where
  stack : List Step
  deriving DecidableEq

/-- Embedding of `BuildCallstack` up to the step list: scan every character,
then push the final literal flushing the remaining word buffer. -/
def buildFromChars (cs : List Char) : Res (List Step) :=
  match scanAll cs ⟨[], "", false⟩ with
  | .ok st => .ok (st.steps ++ [.literal st.buf])
  | .failed e => .failed e
  | .crash m => .crash m

/-! ## Per-pass cache and execution state

`objectCache` is a Go `map[string]interface{}` whose ten keys are fixed by
`newObjectCache` and whose values are dynamically-cast homogeneous slices;
it is modelled as a record with one typed list per key. -/

/-- The per-pass cache created by `newObjectCache`. -/
structure ObjectCache where
  guid : List String
  now : List String
  time : List String
  country : List String
  unicode : List String
  ascii : List String
  int : List Int
  float : List ℚ
  firstname : List String
  lastname : List String
  deriving DecidableEq

/-- Embedding of `newObjectCache`: every sequence empty. -/
def newObjectCache : ObjectCache := ⟨[], [], [], [], [], [], [], [], [], []⟩

/-- Random oracle standing for the process-wide `math/rand`, `crypto/rand`
and `time.Now` sources: the `k`-th draw of each kind is a fixed value of the
oracle, and the execution state counts the draws made so far. -/
structure Rng where
  intn : Nat → Int → Int
  frac : Nat → ℚ
  uuid : Nat → String
  nowEpoch : Nat → Int

/-- Validity of an oracle: `intn` behaves like `rand.Intn`/`rand.Int63n` on a
positive bound and `frac` like `rand.Float64`. -/
def Rng.Valid (r : Rng) : Prop :=
  (∀ k n, 0 < n → 0 ≤ r.intn k n ∧ r.intn k n < n) ∧
  (∀ k, 0 ≤ r.frac k ∧ r.frac k < 1)

/-- A concrete valid oracle used by the evaluation witnesses. -/
def rngZero : Rng :=
  { intn := fun _ _ => 0
  , frac := fun _ => 0
  , uuid := fun _ => "00000000-0000-4000-8000-000000000000"
  , nowEpoch := fun _ => 0 }

/-- Execution state of one render pass: the per-pass cache and the number of
random draws consumed so far. -/
structure GState where
  oc : ObjectCache
  k : Nat
  deriving DecidableEq

/-- Model of `rand.Intn` (and `rand.Int63n`): panics when the bound is not
positive, otherwise consumes one oracle draw. -/
def goIntn (rng : Rng) (k : Nat) (n : Int) : Res Int :=
  if n ≤ 0 then .crash "invalid argument to Intn" else .ok (rng.intn k n)

/-! ## Static data tables

The `data` package of the repository supplies `CountryCodes`,
`PrintableRanges`, `FirstNames`, `LastNames` and `TimeFormats`.
`TimeFormats` (`data/timeformat.go`) and `PrintableRanges`
(`data/unicode.go`) are present in the sources and embedded from them; the
country-code and name tables are absent and modelled from the spec. -/

/-- Modelled from the spec: `CountryCodes` is absent from `src/data`; the
spec fixes it as "a fixed ISO 3166-1 alpha-2 list", stored upper-case. -/
def CountryCodes : List String :=
  ["AD", "AR", "AT", "AU", "BE", "BR", "CA", "CH", "CL", "CN",
   "CZ", "DE", "DK", "ES", "FI", "FR", "GB", "GR", "HU", "IE",
   "IN", "IT", "JP", "KR", "MD", "MX", "NL", "NO", "NZ", "PL",
   "PT", "RO", "RU", "SE", "TR", "UA", "US", "ZA"]

/-- Embedding of `data.PrintableRanges` (`data/unicode.go`): each entry is a
pair of a minimum and maximum code point, in the repository's order —
Cyrillic, Greek, Hangul, three Chinese/Kanji blocks, Arabic, Japanese Kana,
Arabic Presentation, Thai, Phoenician. -/
def PrintableRanges : List (Int × Int) :=
  [(0x0400, 0x04ff), (0x0377, 0x03ff), (0x1100, 0x11ff), (0x4e00, 0x4f80),
   (0x5000, 0x9fa0), (0x3400, 0x4db0), (0x0600, 0x06ff), (0x30a0, 0x30f0),
   (0xfb50, 0xfdff), (0x0e00, 0x0e7f), (0x10900, 0x1091f)]

/-- Modelled from the spec: a name entry has per-language spellings with a
baseline spelling used for the default language. -/
structure GoName where
  base : String
  spellings : List (String × String)
  deriving DecidableEq

/-- Modelled from the spec: `Name.GetSpelling` looks up the spelling for the
requested language, defaulting to the baseline spelling. -/
def GoName.GetSpelling (n : GoName) (lang : String) : String :=
  match List.find? (fun p => p.1 = lang) n.spellings with
  | some p => p.2
  | none => n.base

/-- Modelled from the spec: `FirstNames` table, absent from `src/data`. -/
def FirstNames : List GoName :=
  [⟨"Ion", [(English, "John")]⟩, ⟨"Maria", [(English, "Mary")]⟩,
   ⟨"Vasile", [(English, "Basil")]⟩]

/-- Modelled from the spec: `LastNames` table, absent from `src/data`. -/
def LastNames : List GoName :=
  [⟨"Popescu", [(English, "Popescu")]⟩, ⟨"Rusu", [(English, "Rusu")]⟩]

/-- Embedding of `data.TimeFormats` (`src/data/timeformat.go`). -/
def TimeFormats : List (String × String) :=
  [("simple", "2006-01-02 15:04:05"), ("simpletz", "2006-01-02 15:04:05 -0700")]

/-! ## Time model

`time.LoadLocation` and `time.Time` formatting belong to the Go standard
library.  A location is modelled by its fixed offset from UTC in seconds —
faithful for the fixed-offset zones the templates and tests use — and
`Format` is implemented for the two preset layouts of `TimeFormats`; any
other layout string is treated opaquely (no claim depends on one). -/

/-- Model of the platform zone database for the zones the development
exercises: `UTC` (also the empty name) and the fixed-offset zone `EST`. -/
def loadLocation (z : String) : Option Int :=
  if z = "UTC" ∨ z = "" then some 0
  else if z = "EST" then some (-18000)
  else if z = "Local" then some 0
  else none

/-- An instant together with the offset of its display location. -/
structure GoTime where
  epoch : Int
  off : Int
  deriving DecidableEq

/-- Gregorian date from a day count relative to 1970-01-01 (the standard
civil-from-days calculation used to model `time.Time`'s calendar). -/
def civilFromDays (z0 : Int) : Int × Int × Int :=
  let z := z0 + 719468
  let era := Int.fdiv z 146097
  let doe := z - era * 146097
  let yoe := Int.fdiv (doe - Int.fdiv doe 1460 + Int.fdiv doe 36524 - Int.fdiv doe 146096) 365
  let y := yoe + era * 400
  let doy := doe - (365 * yoe + Int.fdiv yoe 4 - Int.fdiv yoe 100)
  let mp := Int.fdiv (5 * doy + 2) 153
  let d := doy - Int.fdiv (153 * mp + 2) 5 + 1
  let m := mp + (if mp < 10 then 3 else -9)
  (y + (if m ≤ 2 then 1 else 0), m, d)

/-- Decimal rendering of a nonnegative integer, zero-padded to `w` digits. -/
def padInt (w : Nat) (n : Int) : String :=
  let s := toString n.toNat
  let pad := w - s.length
  String.mk (List.replicate pad '0') ++ s

/-- The `2006-01-02 15:04:05` rendering of an instant in its location. -/
def simpleString (t : GoTime) : String :=
  let total := t.epoch + t.off
  let days := Int.fdiv total 86400
  let secs := total - days * 86400
  let ymd := civilFromDays days
  padInt 4 ymd.1 ++ "-" ++ padInt 2 ymd.2.1 ++ "-" ++ padInt 2 ymd.2.2 ++ " " ++
    padInt 2 (Int.fdiv secs 3600) ++ ":" ++ padInt 2 (Int.fdiv (Int.emod secs 3600) 60) ++
    ":" ++ padInt 2 (Int.emod secs 60)

/-- The `-0700` rendering of a location's offset. -/
def offsetString (t : GoTime) : String :=
  let sign := if t.off < 0 then "-" else "+"
  let a := t.off.natAbs
  sign ++ padInt 2 (a / 3600 : Nat) ++ padInt 2 ((a % 3600) / 60 : Nat)

/-- Model of `time.Time.Format` for the preset layouts; other layout strings
are kept opaque (returned unchanged) — no claim inspects them. -/
def goFormat (t : GoTime) (layout : String) : String :=
  if layout = "2006-01-02 15:04:05" then simpleString t
  else if layout = "2006-01-02 15:04:05 -0700" then simpleString t ++ " " ++ offsetString t
  else layout

/-- Embedding of `formatTime`: a named preset of `TimeFormats` is used as the
layout when it exists, otherwise the format string itself is the layout. -/
def formatTime (t : GoTime) (format : String) : String :=
  match List.find? (fun p => p.1 = format) TimeFormats with
  | some p => goFormat t p.2
  | none => goFormat t format

/-! ## Value generators

Each generator mirrors one Go function of the source: it reads its options,
replays a cached value when the ordinal is non-negative, and otherwise
generates a fresh value, appends it to the cache's sequence for its command
and returns it.  The generators also thread the draw counter of the random
oracle. -/

/-- Embedding of `guid`. -/
def guidGen (rng : Rng) (opts : Opts) (s : GState) : Res (String × GState) :=
  match getIntOpt opts "ordinal" with
  | none => .failed (.invalidArgument "ordinal")
  | some ord =>
    if 0 ≤ ord then
      if (s.oc.guid.length : Int) - 1 < ord then .failed (.ordinalError "guid" ord)
      else
        match s.oc.guid[ord.toNat]? with
        | some v => .ok (v, s)
        | none => .crash "index out of range"
    else
      let g := rng.uuid s.k
      .ok (g, ⟨{ s.oc with guid := s.oc.guid ++ [g] }, s.k + 1⟩)

/-- Embedding of `integer`.  The difference `max - min` is computed before
the all-negative mirror swap, exactly as in the source, and `rand.Intn`
panics when that difference is not positive. -/
def integer (rng : Rng) (opts : Opts) (s : GState) : Res (String × GState) :=
  match getIntOpt opts "min" with
  | none => .failed (.invalidArgument "min")
  | some min =>
  match getIntOpt opts "max" with
  | none => .failed (.invalidArgument "max")
  | some max =>
  match getIntOpt opts "ordinal" with
  | none => .failed (.invalidArgument "ordinal")
  | some ord =>
  if 0 ≤ ord then
    if (s.oc.int.length : Int) - 1 < ord then .failed (.ordinalError "int" ord)
    else
      match s.oc.int[ord.toNat]? with
      | some i => .ok (toString i, s)
      | none => .crash "index out of range"
  else if min > max then .failed (.rangeError "int")
  else
    let negateResult := max < 0 ∧ min ≤ 0
    let diff := w64 (max - min)
    let min2 := if max < 0 ∧ min ≤ 0 then w64 (-max) else min
    match goIntn rng s.k diff with
    | .failed e => .failed e
    | .crash m => .crash m
    | .ok n0 =>
      let n1 := w64 (n0 + min2)
      let n := if negateResult then w64 (-n1) else n1
      .ok (toString n, ⟨{ s.oc with int := s.oc.int ++ [n] }, s.k + 1⟩)

/-- Model of `fmt.Sprintf("%f", x)`: the decimal digit rendering of a float
is kept opaque (an injective stand-in); no claim inspects the digits of a
printed float, only the cached rational value. -/
def formatFloat (q : ℚ) : String := toString q

/-- Embedding of `float`.  Note the all-negative test here is
`min < 0.0 && max <= 0.0`, a different guard than the integer one. -/
def floatGen (rng : Rng) (opts : Opts) (s : GState) : Res (String × GState) :=
  match getFloatOpt opts "min" with
  | none => .failed (.invalidArgument "min")
  | some min =>
  match getFloatOpt opts "max" with
  | none => .failed (.invalidArgument "max")
  | some max =>
  match getIntOpt opts "ordinal" with
  | none => .failed (.invalidArgument "ordinal")
  | some ord =>
  if 0 ≤ ord then
    if (s.oc.float.length : Int) - 1 < ord then .failed (.ordinalError "float" ord)
    else
      match s.oc.float[ord.toNat]? with
      | some q => .ok (formatFloat q, s)
      | none => .crash "index out of range"
  else if min > max then .failed (.rangeError "float")
  else
    let negateResult := min < 0 ∧ max ≤ 0
    let diff := max - min
    let min2 := if min < 0 ∧ max ≤ 0 then -max else min
    let n1 := rng.frac s.k * diff + min2
    let n := if negateResult then -n1 else n1
    .ok (formatFloat n, ⟨{ s.oc with float := s.oc.float ++ [n] }, s.k + 1⟩)

/-- Embedding of `country`.  Cached values are stored as drawn (upper case in
the table); the `case` option only lowers on the way out. -/
def country (rng : Rng) (opts : Opts) (s : GState) : Res (String × GState) :=
  let cCase := optGet opts "case"
  match getIntOpt opts "ordinal" with
  | none => .failed (.invalidArgument "ordinal")
  | some ord =>
  if 0 ≤ ord then
    if (s.oc.country.length : Int) - 1 < ord then .failed (.ordinalError "country" ord)
    else
      match s.oc.country[ord.toNat]? with
      | some c => .ok (if cCase = "down" then goToLower c else c, s)
      | none => .crash "index out of range"
  else
    match goIntn rng s.k (CountryCodes.length : Int) with
    | .failed e => .failed e
    | .crash m => .crash m
    | .ok n =>
      match CountryCodes[n.toNat]? with
      | none => .crash "index out of range"
      | some c =>
        .ok (if cCase = "down" then goToLower c else c,
          ⟨{ s.oc with country := s.oc.country ++ [c] }, s.k + 1⟩)

/-- Embedding of `generateRandomString`: for each character, one draw picks
the range and a second draw picks the code point inside it.  Returns the
built string and the advanced draw counter. -/
def generateRandomString (rng : Rng) : Nat → Nat → Res (List Char × Nat)
  | _, 0 => .ok ([], 0)
  | k, n + 1 =>
    match goIntn rng k (PrintableRanges.length : Int) with
    | .failed e => .failed e
    | .crash m => .crash m
    | .ok o =>
      match PrintableRanges[o.toNat]? with
      | none => .crash "index out of range"
      | some r =>
        match goIntn rng (k + 1) (r.2 - r.1) with
        | .failed e => .failed e
        | .crash m => .crash m
        | .ok num =>
          match generateRandomString rng (k + 2) n with
          | .failed e => .failed e
          | .crash m => .crash m
          | .ok (cs, used) => .ok (Char.ofNat (num + r.1).toNat :: cs, used + 2)

/-- Embedding of `unicode`. -/
def unicode (rng : Rng) (opts : Opts) (s : GState) : Res (String × GState) :=
  let cCase := optGet opts "case"
  match getIntOpt opts "length" with
  | none => .failed (.invalidArgument "length")
  | some num =>
  if num ≤ 0 then .failed .lengthError
  else
  match getIntOpt opts "ordinal" with
  | none => .failed (.invalidArgument "ordinal")
  | some ord =>
  if 0 ≤ ord then
    if (s.oc.unicode.length : Int) - 1 < ord then .failed (.ordinalError "unicode" ord)
    else
      match s.oc.unicode[ord.toNat]? with
      | some str => .ok (if cCase = "up" then goToUpper str else str, s)
      | none => .crash "index out of range"
  else
    match generateRandomString rng s.k num.toNat with
    | .failed e => .failed e
    | .crash m => .crash m
    | .ok (cs, used) =>
      let result := String.mk cs
      .ok (if cCase = "up" then goToUpper result else result,
        ⟨{ s.oc with unicode := s.oc.unicode ++ [result] }, s.k + used⟩)

/-- Embedding of `now`.  The captured current instant is a draw of the
oracle's `nowEpoch` stream. -/
def nowGen (rng : Rng) (opts : Opts) (s : GState) : Res (String × GState) :=
  let f := optGet opts "format"
  let z := optGet opts "zone"
  match loadLocation z with
  | none => .failed (.zoneError z)
  | some off =>
  match getIntOpt opts "ordinal" with
  | none => .failed (.invalidArgument "ordinal")
  | some ord =>
  if 0 ≤ ord then
    if (s.oc.now.length : Int) - 1 < ord then .failed (.ordinalError "now" ord)
    else
      match s.oc.now[ord.toNat]? with
      | some v => .ok (v, s)
      | none => .crash "index out of range"
  else
    let ts := formatTime ⟨rng.nowEpoch s.k, off⟩ f
    .ok (ts, ⟨{ s.oc with now := s.oc.now ++ [ts] }, s.k + 1⟩)

/-- Embedding of `datetime` (the `time` command).  When the bound difference
is not positive no random draw is attempted and the minimum bound is used as
the instant. -/
def datetime (rng : Rng) (opts : Opts) (s : GState) : Res (String × GState) :=
  match getIntOpt opts "min" with
  | none => .failed (.invalidArgument "min")
  | some min =>
  match getIntOpt opts "max" with
  | none => .failed (.invalidArgument "max")
  | some max =>
  if min > max then .failed (.rangeError "time")
  else
  let z := optGet opts "zone"
  match loadLocation z with
  | none => .failed (.zoneError z)
  | some off =>
  let f := optGet opts "format"
  match getIntOpt opts "ordinal" with
  | none => .failed (.invalidArgument "ordinal")
  | some ord =>
  if 0 ≤ ord then
    if (s.oc.time.length : Int) - 1 < ord then .failed (.ordinalError "time" ord)
    else
      match s.oc.time[ord.toNat]? with
      | some v => .ok (v, s)
      | none => .crash "index out of range"
  else
    let diff := w64 (max - min)
    if 0 < diff then
      match goIntn rng s.k diff with
      | .failed e => .failed e
      | .crash m => .crash m
      | .ok r =>
        let ut := w64 (r + min)
        let ts := formatTime ⟨ut, off⟩ f
        .ok (ts, ⟨{ s.oc with time := s.oc.time ++ [ts] }, s.k + 1⟩)
    else
      let ts := formatTime ⟨min, off⟩ f
      .ok (ts, ⟨{ s.oc with time := s.oc.time ++ [ts] }, s.k⟩)

/-- String-keyed access to the string-valued cache sequences, as `name` uses
`oc[nameType]` with a dynamic key. -/
def getStrCache (oc : ObjectCache) (cmd : String) : List String :=
  if cmd = "firstname" then oc.firstname
  else if cmd = "lastname" then oc.lastname
  else []

/-- String-keyed update of the string-valued cache sequences used by `name`. -/
def setStrCache (oc : ObjectCache) (cmd : String) (l : List String) : ObjectCache :=
  if cmd = "firstname" then { oc with firstname := l }
  else if cmd = "lastname" then { oc with lastname := l }
  else oc

/-- Embedding of `name`, shared by `firstname` and `lastname`: the cache
stores the untransformed spelling; the case option transforms on the way
out. -/
def nameGen (nameType : String) (names : List GoName) (rng : Rng) (opts : Opts)
    (s : GState) : Res (String × GState) :=
  let cCase := optGet opts "case"
  let lang := optGet opts "language"
  match getIntOpt opts "ordinal" with
  | none => .failed (.invalidArgument "ordinal")
  | some ord =>
  if 0 ≤ ord then
    if ((getStrCache s.oc nameType).length : Int) - 1 < ord then
      .failed (.ordinalError nameType ord)
    else
      match (getStrCache s.oc nameType)[ord.toNat]? with
      | some str =>
        .ok (if cCase = "up" then goToUpper str
             else if cCase = "down" then goToLower str else str, s)
      | none => .crash "index out of range"
  else
    match goIntn rng s.k (names.length : Int) with
    | .failed e => .failed e
    | .crash m => .crash m
    | .ok n =>
      match names[n.toNat]? with
      | none => .crash "index out of range"
      | some nm =>
        let result := nm.GetSpelling lang
        .ok (if cCase = "up" then goToUpper result
             else if cCase = "down" then goToLower result else result,
          ⟨setStrCache s.oc nameType (getStrCache s.oc nameType ++ [result]), s.k + 1⟩)

/-- Embedding of `firstname`. -/
def firstname (rng : Rng) (opts : Opts) (s : GState) : Res (String × GState) :=
  nameGen "firstname" FirstNames rng opts s

/-- Embedding of `lastname`. -/
def lastname (rng : Rng) (opts : Opts) (s : GState) : Res (String × GState) :=
  nameGen "lastname" LastNames rng opts s

/-- Embedding of `resolveWord`: dispatch on the command name; a word not in
the switch falls through to `return "", nil` (the "TODO make this an error"
branch of the source). -/
def resolveWord (rng : Rng) (word : String) (opts : Opts) (s : GState) :
    Res (String × GState) :=
  if word = "guid" then guidGen rng opts s
  else if word = "int" then integer rng opts s
  else if word = "now" then nowGen rng opts s
  else if word = "time" then datetime rng opts s
  else if word = "float" then floatGen rng opts s
  else if word = "unicode" then unicode rng opts s
  else if word = "country" then country rng opts s
  else if word = "firstname" then firstname rng opts s
  else if word = "lastname" then lastname rng opts s
  else .ok ("", s)

/-! ## The render-step executor -/

/-- Failure of one render pass: an error return or a panic. -/
inductive Failure where
  | genErr (e : GenError)
  | crash (msg : String)
  deriving DecidableEq

/-- Evaluation of one compiled step: a literal step writes its fixed text; an
invocation step calls `resolveWord` with its captured command and options. -/
def execStep (rng : Rng) (st : Step) (s : GState) : Res (String × GState) :=
  match st with
  | .literal str => .ok (str, s)
  | .invocation word opts => resolveWord rng word opts s

/-- Evaluation of a compiled step list in order, accumulating output; a
failing step stops the pass, keeping the output and cache already built. -/
def execSteps (rng : Rng) : List Step → GState → String × GState × Option Failure
  | [], s => ("", s, none)
  | st :: rest, s =>
    match execStep rng st s with
    | .ok (t, s2) =>
      let r := execSteps rng rest s2
      (t ++ r.1, r.2)
    | .failed e => ("", s, some (.genErr e))
    | .crash m => ("", s, some (.crash m))

/-- The compiled `Callstack` struct: the step list plus the `cache` field the
struct itself carries (`nil` until the first `Write`). -/
structure Callstack where
  stack : List Step
  cache : Option ObjectCache
  deriving DecidableEq

/-- Embedding of `BuildCallstack`: scan the template and return the compiled
callstack with its `cache` field still `nil`. -/
def BuildCallstack (t : String) : Res Callstack :=
  match buildFromChars t.toList with
  | .ok steps => .ok ⟨steps, none⟩
  | .failed e => .failed e
  | .crash m => .crash m

/-- Result of one `Write` call: the bytes written to the buffer, the failure
if any, and the `Callstack` value after the call — whose `cache` field now
holds the per-pass cache `Write` stored into the struct. -/
structure WriteOut where
  out : String
  fail : Option Failure
  cs : Callstack

/-- Embedding of `Callstack.Write`: assigns a fresh `newObjectCache` to the
struct's `cache` field, then runs every step of the stack against it. -/
def Callstack.Write (c : Callstack) (rng : Rng) : WriteOut :=
  let r := execSteps rng c.stack ⟨newObjectCache, 0⟩
  ⟨r.1, r.2.2, { c with cache := some r.2.1.oc }⟩

/-- One compile-and-render round: `BuildCallstack` followed by `Write`,
collapsing the outcome to the produced string or the failure. -/
def renderTemplate (t : String) (rng : Rng) : Res String :=
  match BuildCallstack t with
  | .failed e => .failed e
  | .crash m => .crash m
  | .ok cs =>
    let w := cs.Write rng
    match w.fail with
    | none => .ok w.out
    | some (.genErr e) => .failed e
    | some (.crash m) => .crash m

/-! ## Auxiliary definitions used by the theorems -/

/-- The command names recognized by `resolveWord`'s dispatch. -/
def knownCommands : List String :=
  ["guid", "int", "now", "time", "float", "unicode", "country", "firstname", "lastname"]

/-- Whether a command name is in the dispatcher's switch. -/
def isKnown (w : String) : Bool := decide (w ∈ knownCommands)

/-- Whether a resolved option mapping selects the generate-fresh path: its
`ordinal` parses and is negative. -/
def ordNeg (opts : Opts) : Bool :=
  match getIntOpt opts "ordinal" with
  | some n => decide (n < 0)
  | none => false

/-- Length of the per-pass cache sequence of a command. -/
def cacheLen (oc : ObjectCache) (cmd : String) : Nat :=
  if cmd = "guid" then oc.guid.length
  else if cmd = "int" then oc.int.length
  else if cmd = "now" then oc.now.length
  else if cmd = "time" then oc.time.length
  else if cmd = "float" then oc.float.length
  else if cmd = "unicode" then oc.unicode.length
  else if cmd = "country" then oc.country.length
  else if cmd = "firstname" then oc.firstname.length
  else if cmd = "lastname" then oc.lastname.length
  else 0

/-- Contribution of one step to the count of generate-fresh invocations of a
command. -/
def stepGen (st : Step) (cmd : String) : Nat :=
  match st with
  | .literal _ => 0
  | .invocation w o => if cmd = w ∧ isKnown w = true ∧ ordNeg o = true then 1 else 0

/-- Number of generate-fresh invocations of a command in a step list. -/
def countGen : List Step → String → Nat
  | [], _ => 0
  | st :: r, cmd => stepGen st cmd + countGen r cmd

/-! ## Helper lemmas -/

theorem string_empty_append (s : String) : "" ++ s = s := by
  cases s
  rfl

theorem string_append_empty (s : String) : s ++ "" = s := by
  cases s with
  | mk data =>
    show String.mk (data ++ []) = String.mk data
    rw [List.append_nil]

theorem string_append_assoc (a b c : String) : a ++ b ++ c = a ++ (b ++ c) := by
  cases a with
  | mk da =>
    cases b with
    | mk db =>
      cases c with
      | mk dc =>
        show String.mk (da ++ db ++ dc) = String.mk (da ++ (db ++ dc))
        rw [List.append_assoc]

theorem rngZero_valid : rngZero.Valid := by
  constructor
  · intro k n h
    exact ⟨le_refl 0, h⟩
  · intro k
    refine ⟨le_refl 0, ?_⟩
    show (0 : ℚ) < 1
    norm_num

theorem goAtoiSigned_bounds {sign : Int} {ds : List Char} {v : Int}
    (h : goAtoiSigned sign ds = some v) : -(2 ^ 63) ≤ v ∧ v < 2 ^ 63 := by
  unfold goAtoiSigned at h
  split at h
  · exact absurd h (by simp)
  · split at h
    · split at h
      · rename_i hb
        cases h
        exact hb
      · exact absurd h (by simp)
    · exact absurd h (by simp)

theorem goAtoi_bounds {s : String} {v : Int} (h : goAtoi s = some v) :
    -(2 ^ 63) ≤ v ∧ v < 2 ^ 63 := by
  unfold goAtoi at h
  split at h <;> exact goAtoiSigned_bounds h

theorem w64_id {x : Int} (h1 : -(2 ^ 63) ≤ x) (h2 : x < 2 ^ 63) : w64 x = x := by
  unfold w64
  have e : (2 : ℤ) ^ 64 = 2 ^ 63 + 2 ^ 63 := by norm_num
  have h3 : 0 ≤ x + 2 ^ 63 := by linarith
  have h4 : x + 2 ^ 63 < 2 ^ 64 := by rw [e]; linarith
  rw [Int.emod_eq_of_lt h3 h4]
  ring

/-! ## Claim C1

The spec demands that every `int`/`float` token with parseable bounds and
`min ≤ max` succeeds with a value in `[min, max]`, in particular that
`min == max` yields exactly that value.  For the integer generator the code
computes `diff := max - min` and calls `rand.Intn(diff)` unconditionally, and
`rand.Intn` panics on a non-positive argument, so every integer token with
equal bounds crashes the render instead of producing the value.  (The author
knew about this failure mode: the `time` generator guards the same draw with
`if diff > 0`.) -/

/-- C1: evaluating the code at the failing input: the token
`int:min:5|max:5` — resolved bounds `5 ≤ 5`, ordinal `-1` — does not succeed
with `"5"`; it panics inside `rand.Intn(0)`. -/
theorem C1_int_equal_bounds_crash :
    renderTemplate "\x7bint:min:5|max:5\x7d" rngZero = .crash "invalid argument to Intn" := by
  decide

/-! ## Claim C2

`resolveWord`'s switch has no default error: an unknown command name falls
through to `return "", nil` (marked `TODO make this an error` in the source),
although the repository declares `UnsupportedTokenError` as "returned from
the parser when it encounters an unknown token".  The render therefore
succeeds and silently emits nothing for the unknown token. -/

/-- C2: an unrecognized command name makes `resolveWord` return the empty
string with no error, and a render of such a token succeeds; no
`UnsupportedTokenError` is produced anywhere. -/
theorem C2_unknown_command_silently_ignored :
    (∀ (rng : Rng) (opts : Opts) (s : GState) (word : String),
        word ∉ knownCommands → resolveWord rng word opts s = .ok ("", s)) ∧
    renderTemplate "\x7bbogus\x7d" rngZero = .ok "" := by
  refine ⟨?_, by decide⟩
  intro rng opts s word h
  simp only [knownCommands, List.mem_cons, List.not_mem_nil, or_false, not_or] at h
  obtain ⟨h1, h2, h3, h4, h5, h6, h7, h8, h9⟩ := h
  simp [resolveWord, h1, h2, h3, h4, h5, h6, h7, h8, h9]

/-- C2 witness: the theorem applied to the concrete unknown command of the
template `\x7bbogus\x7d`. -/
theorem C2_unknown_command_silently_ignored_witness :
    resolveWord rngZero "bogus" [] ⟨newObjectCache, 0⟩ = .ok ("", ⟨newObjectCache, 0⟩) :=
  C2_unknown_command_silently_ignored.1 rngZero [] ⟨newObjectCache, 0⟩ "bogus" (by decide)

/-! ## Claim C3

`optionsToMap` splits each `|`-segment at its first `:` and indexes `opt[1]`
without checking that a `:` was present: a segment with no value after the
key makes compilation panic with an index-out-of-range runtime error instead
of returning a `MalformedToken` error (no such error value exists anywhere in
the code, although the function's signature reserves an error result). -/

/-- C3: evaluating the code at the failing input: compiling the template
`\x7bint:min\x7d` — one option segment `min` with no `:value` — panics
instead of returning an error. -/
theorem C3_missing_value_crashes_compile :
    BuildCallstack "\x7bint:min\x7d" = .crash "index out of range" := by
  decide

/-! ## Claim C4

`Callstack.Write` begins with `c.cache = newObjectCache()`: the per-pass
cache is stored into the compiled Program's own struct field, so a render
call does mutate Program state — the cache lives outside the call in
progress, which is exactly what the spec's concurrency requirement rules
out. -/

/-- C4: evaluating the code at a failing input: the program compiled from
the literal template `a` has `cache = nil`; one `Write` call leaves the
`cache` field changed, so render calls mutate the Program's own fields. -/
theorem C4_write_mutates_program_cache :
    BuildCallstack "a" = .ok ⟨[.literal "a"], none⟩ ∧
    ((Callstack.mk [.literal "a"] none).Write rngZero).cs.cache ≠
      (Callstack.mk [.literal "a"] none).cache := by
  refine ⟨by decide, ?_⟩
  decide

/-! ## Claim C5

The spec's claim says a range straddling zero must fail fast with a
`RangeError`.  The code only comments `neg to pos ranges currently not
supported` and proceeds: `RangeError` is produced solely when `min > max`,
and a straddling range draws `Intn(max-min) + min`, a value in `[min, max)`.
(The spec's own design-notes section records this as an open question: the
straddling policy "is not actively rejected in all code paths".) -/

/-- C5 counterexample: the straddling token `int:min:-1|max:1` renders
successfully — no `RangeError`, a generated value instead. -/
theorem C5_straddle_not_rejected :
    renderTemplate "\x7bint:min:-1|max:1\x7d" rngZero = .ok "-1" := by
  decide

/-- C5 as amended: a straddling range (`min < 0 < max`) is not rejected; the
`int` generator (when the 64-bit difference does not overflow) and the
`float` generator succeed and produce a value `v` with `min ≤ v < max`,
appending it to the cache. -/
theorem C5_straddle_generates_in_range :
    (∀ (rng : Rng), rng.Valid → ∀ (opts : Opts) (s : GState) (min max ord : Int),
        getIntOpt opts "min" = some min → getIntOpt opts "max" = some max →
        getIntOpt opts "ordinal" = some ord → ord < 0 → min < 0 → 0 < max →
        max - min < 2 ^ 63 →
        ∃ n : Int, integer rng opts s =
            .ok (toString n, ⟨{ s.oc with int := s.oc.int ++ [n] }, s.k + 1⟩) ∧
          min ≤ n ∧ n < max) ∧
    (∀ (rng : Rng), rng.Valid → ∀ (opts : Opts) (s : GState) (min max : ℚ) (ord : Int),
        getFloatOpt opts "min" = some min → getFloatOpt opts "max" = some max →
        getIntOpt opts "ordinal" = some ord → ord < 0 → min < 0 → 0 < max →
        ∃ q : ℚ, floatGen rng opts s =
            .ok (formatFloat q, ⟨{ s.oc with float := s.oc.float ++ [q] }, s.k + 1⟩) ∧
          min ≤ q ∧ q < max) := by
  constructor
  · intro rng hv opts s min max ord hmin hmax hord hordneg hminneg hmaxpos hdiff
    have hminb := goAtoi_bounds hmin
    have hmaxb := goAtoi_bounds hmax
    have hdpos : 0 < max - min := by linarith
    have hwd : w64 (max - min) = max - min := w64_id (by linarith) hdiff
    have hdraw := hv.1 s.k (max - min) hdpos
    refine ⟨rng.intn s.k (max - min) + min, ?_, by linarith [hdraw.1], by linarith [hdraw.2]⟩
    simp only [integer, hmin, hmax, hord]
    rw [if_neg (by omega : ¬ 0 ≤ ord), if_neg (by omega : ¬ min > max),
      if_neg (by omega : ¬ (max < 0 ∧ min ≤ 0))]
    have hneg : ¬ (max < 0 ∧ min ≤ 0) := by omega
    simp only [hwd, goIntn, if_neg (by omega : ¬ max - min ≤ 0), if_neg hneg]
    have hw1 : w64 (rng.intn s.k (max - min) + min) = rng.intn s.k (max - min) + min :=
      w64_id (by linarith [hdraw.1, hminb.1]) (by linarith [hdraw.2, hmaxb.2])
    rw [hw1]
  · intro rng hv opts s min max ord hmin hmax hord hordneg hminneg hmaxpos
    have hfrac := hv.2 s.k
    refine ⟨rng.frac s.k * (max - min) + min, ?_, ?_, ?_⟩
    · simp only [floatGen, hmin, hmax, hord]
      rw [if_neg (by omega : ¬ 0 ≤ ord), if_neg (by push_neg; linarith : ¬ min > max),
        if_neg (by rintro ⟨h1, h2⟩; linarith : ¬ (min < 0 ∧ max ≤ 0))]
      simp only [if_neg (by rintro ⟨h1, h2⟩; linarith : ¬ (min < 0 ∧ max ≤ 0))]
    · nlinarith [hfrac.1, hfrac.2]
    · nlinarith [hfrac.1, hfrac.2]

/-- C5 amended-claim witness: the integer half applied to the concrete
straddling token `int:min:-1|max:1` under the concrete valid oracle. -/
theorem C5_straddle_generates_in_range_witness :
    ∃ n : Int, integer rngZero [("min", "-1"), ("max", "1"), ("ordinal", "-1")]
        ⟨newObjectCache, 0⟩ =
        .ok (toString n, ⟨{ newObjectCache with int := newObjectCache.int ++ [n] }, 1⟩) ∧
      -1 ≤ n ∧ n < 1 :=
  C5_straddle_generates_in_range.1 rngZero rngZero_valid
    [("min", "-1"), ("max", "1"), ("ordinal", "-1")] ⟨newObjectCache, 0⟩
    (-1) 1 (-1) (by decide) (by decide) (by decide) (by decide) (by decide) (by decide)
    (by decide)

/-! ## Claim C6

Every generator guards an ordinal replay with `len(cache)-1 < ord`, i.e. it
fails exactly when fewer than `ord+1` values are already cached; shown here
for `guid` (the cited source) together with the two template scenarios of
the claim. -/

/-- C6: a non-negative ordinal `n` on a `guid` invocation fails with the
ordinal error exactly when fewer than `n+1` guids were produced earlier in
the pass (otherwise it succeeds without touching the state), and both
`\x7bguid:ordinal:1\x7d` and `\x7bguid\x7d@\x7bguid:ordinal:1\x7d` fail
their render that way. -/
theorem C6_ordinal_error_iff :
    (∀ (rng : Rng) (opts : Opts) (s : GState) (ord : Int),
        getIntOpt opts "ordinal" = some ord → 0 ≤ ord →
        (((s.oc.guid.length : Int) < ord + 1 →
            guidGen rng opts s = .failed (.ordinalError "guid" ord)) ∧
          (ord + 1 ≤ (s.oc.guid.length : Int) →
            ∃ v, guidGen rng opts s = .ok (v, s)))) ∧
    (∀ rng : Rng,
        renderTemplate "\x7bguid:ordinal:1\x7d" rng = .failed (.ordinalError "guid" 1)) ∧
    (∀ rng : Rng,
        renderTemplate "\x7bguid\x7d@\x7bguid:ordinal:1\x7d" rng =
          .failed (.ordinalError "guid" 1)) := by
  refine ⟨?_, fun rng => rfl, fun rng => rfl⟩
  intro rng opts s ord hord h0
  constructor
  · intro hlt
    simp only [guidGen, hord]
    rw [if_pos h0, if_pos (by omega : (s.oc.guid.length : Int) - 1 < ord)]
  · intro hge
    have hidx : ord.toNat < s.oc.guid.length := by omega
    refine ⟨s.oc.guid[ord.toNat], ?_⟩
    simp only [guidGen, hord]
    rw [if_pos h0, if_neg (by omega : ¬ (s.oc.guid.length : Int) - 1 < ord),
      List.getElem?_eq_getElem hidx]

/-- C6 witness: the failing scenario at the concrete oracle, and the general
part applied to a cache that already holds one guid at position `0`. -/
theorem C6_ordinal_error_iff_witness :
    renderTemplate "\x7bguid:ordinal:1\x7d" rngZero = .failed (.ordinalError "guid" 1) ∧
    ∃ v, guidGen rngZero [("ordinal", "0")] ⟨{ newObjectCache with guid := ["u"] }, 1⟩ =
      .ok (v, ⟨{ newObjectCache with guid := ["u"] }, 1⟩) :=
  ⟨C6_ordinal_error_iff.2.1 rngZero,
    (C6_ordinal_error_iff.1 rngZero [("ordinal", "0")]
      ⟨{ newObjectCache with guid := ["u"] }, 1⟩ 0 (by decide) (by decide)).2 (by decide)⟩

/-! ## Claim C9

When the resolved `min` and `max` of a `time` token coincide, the difference
is zero, the guarded `Int63n` draw is skipped and the instant is exactly the
minimum bound, deterministically. -/

/-- C9: an equal-bounds `time` token deterministically formats the fixed
instant (no random draw is consumed: the draw counter is unchanged), and the
template `\x7btime:min:1|max:1|format:simple|zone:EST\x7d` always renders
`1969-12-31 19:00:01`. -/
theorem C9_equal_bounds_deterministic :
    (∀ (rng : Rng) (opts : Opts) (s : GState) (m ord off : Int),
        getIntOpt opts "min" = some m → getIntOpt opts "max" = some m →
        loadLocation (optGet opts "zone") = some off →
        getIntOpt opts "ordinal" = some ord → ord < 0 →
        datetime rng opts s =
          .ok (formatTime ⟨m, off⟩ (optGet opts "format"),
            ⟨{ s.oc with time := s.oc.time ++ [formatTime ⟨m, off⟩ (optGet opts "format")] },
              s.k⟩)) ∧
    (∀ rng : Rng,
        renderTemplate "\x7btime:min:1|max:1|format:simple|zone:EST\x7d" rng =
          .ok "1969-12-31 19:00:01") := by
  refine ⟨?_, fun rng => rfl⟩
  intro rng opts s m ord off hmin hmax hloc hord hneg
  simp only [datetime, hmin, hmax, hloc, hord]
  rw [if_neg (by omega : ¬ m > m)]
  rw [if_neg (by omega : ¬ 0 ≤ ord), sub_self,
    show w64 0 = 0 from w64_id (by norm_num) (by norm_num)]
  rw [if_neg (by omega : ¬ (0 : Int) < 0)]

/-- C9 witness: the general part applied to the resolved options of the
scenario template under the concrete oracle. -/
theorem C9_equal_bounds_deterministic_witness :
    datetime rngZero
        [("ordinal", "-1"), ("format", "simple"), ("min", "1"), ("max", "1"), ("zone", "EST")]
        ⟨newObjectCache, 0⟩ =
      .ok (formatTime ⟨1, -18000⟩ "simple",
        ⟨{ newObjectCache with
            time := newObjectCache.time ++ [formatTime ⟨1, -18000⟩ "simple"] }, 0⟩) :=
  C9_equal_bounds_deterministic.1 rngZero
    [("ordinal", "-1"), ("format", "simple"), ("min", "1"), ("max", "1"), ("zone", "EST")]
    ⟨newObjectCache, 0⟩ 1 (-1) (-18000) (by decide) (by decide) (by decide) (by decide)
    (by decide)

/-! ## Claim C7

A `country` token with `ordinal:0` replays position `0` of the per-pass
country cache; the cache stores the drawn code itself, and the default
`case:up` presentation leaves the stored upper-case code untouched on both
the fresh and the replayed read, so the two substrings coincide. -/

theorem countryCodes_get {i : Nat} (h : i < CountryCodes.length) :
    ∃ c, CountryCodes[i]? = some c ∧ c.length = 2 := by
  refine ⟨CountryCodes[i], List.getElem?_eq_getElem h, ?_⟩
  have hall : ∀ c ∈ CountryCodes, c.length = 2 := by decide
  exact hall _ (List.getElem_mem h)

/-- C7: under any valid oracle, `\x7bcountry\x7d@\x7bcountry:ordinal:0\x7d`
renders as two byte-identical 2-character codes separated by `@`. -/
theorem C7_country_ordinal_replay :
    ∀ rng : Rng, rng.Valid →
      ∃ c, renderTemplate "\x7bcountry\x7d@\x7bcountry:ordinal:0\x7d" rng =
          .ok (c ++ "@" ++ c) ∧ c.length = 2 := by
  intro rng hv
  have hdraw := hv.1 0 (CountryCodes.length : Int) (by decide)
  have hidx : (rng.intn 0 (CountryCodes.length : Int)).toNat < CountryCodes.length := by
    omega
  obtain ⟨c, hc, hclen⟩ := countryCodes_get hidx
  refine ⟨c, ?_, hclen⟩
  have hb : BuildCallstack "\x7bcountry\x7d@\x7bcountry:ordinal:0\x7d" =
      .ok ⟨[Step.literal "", Step.invocation "country" [("ordinal", "-1"), ("case", "up")],
        Step.literal "@", Step.invocation "country" [("ordinal", "0"), ("case", "up")],
        Step.literal ""], none⟩ := by decide
  have h1 : country rng [("ordinal", "-1"), ("case", "up")] ⟨newObjectCache, 0⟩ =
      (match CountryCodes[(rng.intn 0 (CountryCodes.length : Int)).toNat]? with
        | none => Res.crash "index out of range"
        | some c2 => .ok (c2, ⟨{ newObjectCache with country := [c2] }, 1⟩)) := rfl
  simp only [hc] at h1
  have hr1 : resolveWord rng "country" [("ordinal", "-1"), ("case", "up")]
      ⟨newObjectCache, 0⟩ =
      .ok (c, ⟨⟨[], [], [], [c], [], [], [], [], [], []⟩, 1⟩) := h1
  have hr2 : resolveWord rng "country" [("ordinal", "0"), ("case", "up")]
      ⟨⟨[], [], [], [c], [], [], [], [], [], []⟩, 1⟩ =
      .ok (c, ⟨⟨[], [], [], [c], [], [], [], [], [], []⟩, 1⟩) := rfl
  simp only [renderTemplate, hb, Callstack.Write, execSteps, execStep, hr1, hr2]
  simp only [string_empty_append, string_append_empty, string_append_assoc]

/-- C7 witness: the theorem applied to the concrete valid oracle. -/
theorem C7_country_ordinal_replay_witness :
    ∃ c, renderTemplate "\x7bcountry\x7d@\x7bcountry:ordinal:0\x7d" rngZero =
        .ok (c ++ "@" ++ c) ∧ c.length = 2 :=
  C7_country_ordinal_replay rngZero rngZero_valid

/-! ## Claim C10

An unmatched `{` flushes the pending literal and leaves the scanner inside a
word until the end of input, where the accumulated characters are pushed as
the final literal — so the text after the `{` is emitted verbatim and the
`{` itself vanishes.  The claim as stated quantifies over *every* template
containing an unmatched `{`; it fails when an earlier, completed token has a
malformed option segment, because compilation then panics (claim C3's
behaviour) before the unmatched brace is ever reached. -/

theorem push_append_mk (b : String) (c : Char) (cs : List Char) :
    b.push c ++ String.mk cs = b ++ String.mk (c :: cs) := by
  cases b with
  | mk data =>
    show String.mk (data ++ [c] ++ cs) = String.mk (data ++ (c :: cs))
    rw [List.append_assoc]
    rfl

theorem scanAll_append (xs ys : List Char) (st : ScanSt) :
    scanAll (xs ++ ys) st =
      (match scanAll xs st with
        | .ok st2 => scanAll ys st2
        | .failed e => .failed e
        | .crash m => .crash m) := by
  induction xs generalizing st with
  | nil => simp [scanAll]
  | cons c cs ih =>
    simp only [List.cons_append, scanAll]
    cases hsc : scanChar st c with
    | ok st2 => simp [ih]
    | failed e => rfl
    | crash m => rfl

theorem scanAll_noClose (s : List Char) : ∀ (steps : List Step) (buf : String),
    (∀ c ∈ s, c ≠ '}') →
    scanAll s ⟨steps, buf, true⟩ = .ok ⟨steps, buf ++ String.mk s, true⟩ := by
  induction s with
  | nil =>
    intro steps buf h
    simp [scanAll, string_append_empty]
  | cons c cs ih =>
    intro steps buf h
    have hcne : c ≠ '}' := h c (List.mem_cons_self c cs)
    have h1 : scanChar ⟨steps, buf, true⟩ c = .ok ⟨steps, buf.push c, true⟩ := by
      unfold scanChar
      rw [if_neg (by simp), if_neg (by simp [hcne])]
    simp only [scanAll, h1]
    rw [ih steps (buf.push c) (fun x hx => h x (List.mem_cons_of_mem c hx)),
      push_append_mk]

theorem buildFromChars_unmatched (p s : List Char) (st : List Step) (buf : String)
    (hp : scanAll p ⟨[], "", false⟩ = .ok ⟨st, buf, false⟩)
    (hs : ∀ c ∈ s, c ≠ '}') :
    buildFromChars (p ++ '{' :: s) =
      .ok (st ++ [.literal buf, .literal (String.mk s)]) := by
  unfold buildFromChars
  rw [scanAll_append]
  simp only [hp]
  have h1 : scanChar ⟨st, buf, false⟩ '{' = .ok ⟨st ++ [.literal buf], "", true⟩ := by
    unfold scanChar
    rw [if_pos (by simp)]
  simp only [scanAll, h1]
  have h2 := scanAll_noClose s (st ++ [Step.literal buf]) "" hs
  simp only [h2, string_empty_append]
  simp [List.append_assoc]

theorem execSteps_snoc_literals (rng : Rng) (ss : List Step) :
    ∀ (s0 : GState) (out : String) (s1 : GState),
      execSteps rng ss s0 = (out, s1, none) →
      ∀ b q : String,
        execSteps rng (ss ++ [.literal b, .literal q]) s0 = (out ++ b ++ q, s1, none) := by
  induction ss with
  | nil =>
    intro s0 out s1 h b q
    simp only [execSteps, Prod.mk.injEq] at h
    obtain ⟨h1, h2, -⟩ := h
    subst h1
    subst h2
    show ((b ++ (q ++ ""), s0, none) : String × GState × Option Failure) = _
    rw [string_append_empty, string_empty_append]
  | cons hd tl ih =>
    intro s0 out s1 h b q
    simp only [List.cons_append, execSteps] at h ⊢
    cases hex : execStep rng hd s0 with
    | ok ts =>
      obtain ⟨t, s2⟩ := ts
      rw [hex] at h
      dsimp only at h ⊢
      rcases htl : execSteps rng tl s2 with ⟨o2, s3, f2⟩
      rw [htl] at h
      simp only [Prod.mk.injEq] at h
      obtain ⟨h1, h2, h3⟩ := h
      subst h3
      simp only [List.append_eq]
      rw [ih s2 o2 s3 htl b q]
      simp only [Prod.mk.injEq]
      refine ⟨?_, h2, trivial⟩
      rw [← h1]
      simp [string_append_assoc]
    | failed e =>
      rw [hex] at h
      simp at h
    | crash m =>
      rw [hex] at h
      simp at h

/-- C10 counterexample: the template `\x7bint:min\x7dx\x7b` contains an
unmatched `{` (its final character), yet compilation does not succeed: the
malformed completed token before it panics the scan. -/
theorem C10_unmatched_brace_counterexample :
    BuildCallstack "\x7bint:min\x7dx\x7b" = .crash "index out of range" := by
  decide

/-- C10 as amended: for templates whose completed tokens compile, an
unmatched `{` yields the prefix's steps followed by two literal steps — the
flushed buffer and the characters after the `{` (which contain no `}`), with
the `{` itself omitted; a pass that executes the earlier steps successfully
emits those characters verbatim at the end; in particular `a\x7bint` always
renders as `aint`. -/
theorem C10_unmatched_brace_literal_tail :
    (∀ (p s : List Char) (st : List Step) (buf : String),
        scanAll p ⟨[], "", false⟩ = .ok ⟨st, buf, false⟩ →
        (∀ c ∈ s, c ≠ '}') →
        buildFromChars (p ++ '{' :: s) =
          .ok (st ++ [.literal buf, .literal (String.mk s)])) ∧
    (∀ (rng : Rng) (ss : List Step) (s0 : GState) (out : String) (s1 : GState),
        execSteps rng ss s0 = (out, s1, none) →
        ∀ b q : String,
          execSteps rng (ss ++ [.literal b, .literal q]) s0 = (out ++ b ++ q, s1, none)) ∧
    (∀ rng : Rng, renderTemplate "a\x7bint" rng = .ok "aint") :=
  ⟨buildFromChars_unmatched, fun rng ss s0 out s1 h b q =>
    execSteps_snoc_literals rng ss s0 out s1 h b q, fun _ => rfl⟩

/-- C10 witness: the compile part applied to the concrete template
`a\x7bint` (prefix `a`, unmatched suffix `int`). -/
theorem C10_unmatched_brace_literal_tail_witness :
    buildFromChars (['a'] ++ '{' :: ['i', 'n', 't']) =
      .ok ([] ++ [.literal "a", .literal (String.mk ['i', 'n', 't'])]) :=
  C10_unmatched_brace_literal_tail.1 ['a'] ['i', 'n', 't'] [] "a" (by decide) (by decide)

/-! ## Claim C8

The cache-length invariant: every generator appends exactly one value to its
own command's cache sequence on a successful generate-fresh invocation, and
appends nothing on an ordinal replay; literal steps and unknown commands
touch no cache.  The per-generator lemmas below record this for each
dispatch arm, and the claim's theorem folds them over a pass. -/

theorem guid_cacheLen {rng : Rng} {opts : Opts} {s : GState} {v : String} {s2 : GState}
    (h : guidGen rng opts s = .ok (v, s2)) :
    ∀ cmd, cacheLen s2.oc cmd = cacheLen s.oc cmd +
      (if cmd = "guid" ∧ isKnown "guid" = true ∧ ordNeg opts = true then 1 else 0) := by
  intro cmd
  unfold guidGen at h
  cases hord : getIntOpt opts "ordinal" with
  | none => rw [hord] at h; exact absurd h (by simp)
  | some ord =>
    rw [hord] at h
    dsimp only at h
    have hordeq : ordNeg opts = decide (ord < 0) := by
      unfold ordNeg; rw [hord]
    by_cases h0 : 0 ≤ ord
    · rw [if_pos h0] at h
      split at h
      · exact absurd h (by simp)
      · split at h
        · cases h
          have hneg : ordNeg opts = false := by rw [hordeq]; simp; omega
          simp [hneg]
        · exact absurd h (by simp)
    · rw [if_neg h0] at h
      cases h
      have hneg : ordNeg opts = true := by rw [hordeq]; simp; omega
      have hkn : isKnown "guid" = true := by decide
      simp only [hneg, hkn, eq_self_iff_true, and_true]
      simp only [cacheLen]
      split_ifs <;> simp_all

theorem integer_cacheLen {rng : Rng} {opts : Opts} {s : GState} {v : String} {s2 : GState}
    (h : integer rng opts s = .ok (v, s2)) :
    ∀ cmd, cacheLen s2.oc cmd = cacheLen s.oc cmd +
      (if cmd = "int" ∧ isKnown "int" = true ∧ ordNeg opts = true then 1 else 0) := by
  intro cmd
  unfold integer at h
  cases hmin : getIntOpt opts "min" with
  | none => rw [hmin] at h; exact absurd h (by simp)
  | some min =>
  rw [hmin] at h
  cases hmax : getIntOpt opts "max" with
  | none => rw [hmax] at h; exact absurd h (by simp)
  | some max =>
  rw [hmax] at h
  cases hord : getIntOpt opts "ordinal" with
  | none => rw [hord] at h; exact absurd h (by simp)
  | some ord =>
  rw [hord] at h
  dsimp only at h
  have hordeq : ordNeg opts = decide (ord < 0) := by
    unfold ordNeg; rw [hord]
  by_cases h0 : 0 ≤ ord
  · rw [if_pos h0] at h
    split at h
    · exact absurd h (by simp)
    · split at h
      · cases h
        have hneg : ordNeg opts = false := by rw [hordeq]; simp; omega
        simp [hneg]
      · exact absurd h (by simp)
  · rw [if_neg h0] at h
    split at h
    · exact absurd h (by simp)
    · split at h
      · exact absurd h (by simp)
      · exact absurd h (by simp)
      · cases h
        have hneg : ordNeg opts = true := by rw [hordeq]; simp; omega
        have hkn : isKnown "int" = true := by decide
        simp only [hneg, hkn, eq_self_iff_true, and_true]
        simp only [cacheLen]
        split_ifs <;> simp_all

theorem float_cacheLen {rng : Rng} {opts : Opts} {s : GState} {v : String} {s2 : GState}
    (h : floatGen rng opts s = .ok (v, s2)) :
    ∀ cmd, cacheLen s2.oc cmd = cacheLen s.oc cmd +
      (if cmd = "float" ∧ isKnown "float" = true ∧ ordNeg opts = true then 1 else 0) := by
  intro cmd
  unfold floatGen at h
  cases hmin : getFloatOpt opts "min" with
  | none => rw [hmin] at h; exact absurd h (by simp)
  | some min =>
  rw [hmin] at h
  cases hmax : getFloatOpt opts "max" with
  | none => rw [hmax] at h; exact absurd h (by simp)
  | some max =>
  rw [hmax] at h
  cases hord : getIntOpt opts "ordinal" with
  | none => rw [hord] at h; exact absurd h (by simp)
  | some ord =>
  rw [hord] at h
  dsimp only at h
  have hordeq : ordNeg opts = decide (ord < 0) := by
    unfold ordNeg; rw [hord]
  by_cases h0 : 0 ≤ ord
  · rw [if_pos h0] at h
    split at h
    · exact absurd h (by simp)
    · split at h
      · cases h
        have hneg : ordNeg opts = false := by rw [hordeq]; simp; omega
        simp [hneg]
      · exact absurd h (by simp)
  · rw [if_neg h0] at h
    split at h
    · exact absurd h (by simp)
    · cases h
      have hneg : ordNeg opts = true := by rw [hordeq]; simp; omega
      have hkn : isKnown "float" = true := by decide
      simp only [hneg, hkn, eq_self_iff_true, and_true]
      simp only [cacheLen]
      split_ifs <;> simp_all

theorem country_cacheLen {rng : Rng} {opts : Opts} {s : GState} {v : String} {s2 : GState}
    (h : country rng opts s = .ok (v, s2)) :
    ∀ cmd, cacheLen s2.oc cmd = cacheLen s.oc cmd +
      (if cmd = "country" ∧ isKnown "country" = true ∧ ordNeg opts = true then 1 else 0) := by
  intro cmd
  unfold country at h
  cases hord : getIntOpt opts "ordinal" with
  | none => rw [hord] at h; exact absurd h (by simp)
  | some ord =>
  rw [hord] at h
  dsimp only at h
  have hordeq : ordNeg opts = decide (ord < 0) := by
    unfold ordNeg; rw [hord]
  by_cases h0 : 0 ≤ ord
  · rw [if_pos h0] at h
    split at h
    · exact absurd h (by simp)
    · split at h
      · cases h
        have hneg : ordNeg opts = false := by rw [hordeq]; simp; omega
        simp [hneg]
      · exact absurd h (by simp)
  · rw [if_neg h0] at h
    split at h
    · exact absurd h (by simp)
    · exact absurd h (by simp)
    · split at h
      · exact absurd h (by simp)
      · cases h
        have hneg : ordNeg opts = true := by rw [hordeq]; simp; omega
        have hkn : isKnown "country" = true := by decide
        simp only [hneg, hkn, eq_self_iff_true, and_true]
        simp only [cacheLen]
        split_ifs <;> simp_all

theorem unicode_cacheLen {rng : Rng} {opts : Opts} {s : GState} {v : String} {s2 : GState}
    (h : unicode rng opts s = .ok (v, s2)) :
    ∀ cmd, cacheLen s2.oc cmd = cacheLen s.oc cmd +
      (if cmd = "unicode" ∧ isKnown "unicode" = true ∧ ordNeg opts = true then 1 else 0) := by
  intro cmd
  unfold unicode at h
  cases hlen : getIntOpt opts "length" with
  | none => rw [hlen] at h; exact absurd h (by simp)
  | some num =>
  rw [hlen] at h
  dsimp only at h
  split at h
  · exact absurd h (by simp)
  cases hord : getIntOpt opts "ordinal" with
  | none => rw [hord] at h; exact absurd h (by simp)
  | some ord =>
  rw [hord] at h
  dsimp only at h
  have hordeq : ordNeg opts = decide (ord < 0) := by
    unfold ordNeg; rw [hord]
  by_cases h0 : 0 ≤ ord
  · rw [if_pos h0] at h
    split at h
    · exact absurd h (by simp)
    · split at h
      · cases h
        have hneg : ordNeg opts = false := by rw [hordeq]; simp; omega
        simp [hneg]
      · exact absurd h (by simp)
  · rw [if_neg h0] at h
    split at h
    · exact absurd h (by simp)
    · exact absurd h (by simp)
    · cases h
      have hneg : ordNeg opts = true := by rw [hordeq]; simp; omega
      have hkn : isKnown "unicode" = true := by decide
      simp only [hneg, hkn, eq_self_iff_true, and_true]
      simp only [cacheLen]
      split_ifs <;> simp_all

theorem now_cacheLen {rng : Rng} {opts : Opts} {s : GState} {v : String} {s2 : GState}
    (h : nowGen rng opts s = .ok (v, s2)) :
    ∀ cmd, cacheLen s2.oc cmd = cacheLen s.oc cmd +
      (if cmd = "now" ∧ isKnown "now" = true ∧ ordNeg opts = true then 1 else 0) := by
  intro cmd
  unfold nowGen at h
  dsimp only at h
  cases hloc : loadLocation (optGet opts "zone") with
  | none => rw [hloc] at h; exact absurd h (by simp)
  | some off =>
  rw [hloc] at h
  cases hord : getIntOpt opts "ordinal" with
  | none => rw [hord] at h; exact absurd h (by simp)
  | some ord =>
  rw [hord] at h
  dsimp only at h
  have hordeq : ordNeg opts = decide (ord < 0) := by
    unfold ordNeg; rw [hord]
  by_cases h0 : 0 ≤ ord
  · rw [if_pos h0] at h
    split at h
    · exact absurd h (by simp)
    · split at h
      · cases h
        have hneg : ordNeg opts = false := by rw [hordeq]; simp; omega
        simp [hneg]
      · exact absurd h (by simp)
  · rw [if_neg h0] at h
    cases h
    have hneg : ordNeg opts = true := by rw [hordeq]; simp; omega
    have hkn : isKnown "now" = true := by decide
    simp only [hneg, hkn, eq_self_iff_true, and_true]
    simp only [cacheLen]
    split_ifs <;> simp_all

theorem datetime_cacheLen {rng : Rng} {opts : Opts} {s : GState} {v : String} {s2 : GState}
    (h : datetime rng opts s = .ok (v, s2)) :
    ∀ cmd, cacheLen s2.oc cmd = cacheLen s.oc cmd +
      (if cmd = "time" ∧ isKnown "time" = true ∧ ordNeg opts = true then 1 else 0) := by
  intro cmd
  unfold datetime at h
  cases hmin : getIntOpt opts "min" with
  | none => rw [hmin] at h; exact absurd h (by simp)
  | some min =>
  rw [hmin] at h
  cases hmax : getIntOpt opts "max" with
  | none => rw [hmax] at h; exact absurd h (by simp)
  | some max =>
  rw [hmax] at h
  dsimp only at h
  split at h
  · exact absurd h (by simp)
  cases hloc : loadLocation (optGet opts "zone") with
  | none => rw [hloc] at h; exact absurd h (by simp)
  | some off =>
  rw [hloc] at h
  cases hord : getIntOpt opts "ordinal" with
  | none => rw [hord] at h; exact absurd h (by simp)
  | some ord =>
  rw [hord] at h
  dsimp only at h
  have hordeq : ordNeg opts = decide (ord < 0) := by
    unfold ordNeg; rw [hord]
  by_cases h0 : 0 ≤ ord
  · rw [if_pos h0] at h
    split at h
    · exact absurd h (by simp)
    · split at h
      · cases h
        have hneg : ordNeg opts = false := by rw [hordeq]; simp; omega
        simp [hneg]
      · exact absurd h (by simp)
  · rw [if_neg h0] at h
    have hneg : ordNeg opts = true := by rw [hordeq]; simp; omega
    have hkn : isKnown "time" = true := by decide
    split at h
    · split at h
      · exact absurd h (by simp)
      · exact absurd h (by simp)
      · cases h
        simp only [hneg, hkn, eq_self_iff_true, and_true]
        simp only [cacheLen]
        split_ifs <;> simp_all
    · cases h
      simp only [hneg, hkn, eq_self_iff_true, and_true]
      simp only [cacheLen]
      split_ifs <;> simp_all

theorem firstname_cacheLen {rng : Rng} {opts : Opts} {s : GState} {v : String} {s2 : GState}
    (h : firstname rng opts s = .ok (v, s2)) :
    ∀ cmd, cacheLen s2.oc cmd = cacheLen s.oc cmd +
      (if cmd = "firstname" ∧ isKnown "firstname" = true ∧ ordNeg opts = true then 1
        else 0) := by
  intro cmd
  have hget : ∀ oc : ObjectCache, getStrCache oc "firstname" = oc.firstname := fun _ => rfl
  have hset : ∀ (oc : ObjectCache) l, setStrCache oc "firstname" l = { oc with firstname := l } :=
    fun _ _ => rfl
  unfold firstname nameGen at h
  simp only [hget, hset] at h
  cases hord : getIntOpt opts "ordinal" with
  | none => rw [hord] at h; exact absurd h (by simp)
  | some ord =>
  rw [hord] at h
  dsimp only at h
  have hordeq : ordNeg opts = decide (ord < 0) := by
    unfold ordNeg; rw [hord]
  by_cases h0 : 0 ≤ ord
  · rw [if_pos h0] at h
    split at h
    · exact absurd h (by simp)
    · split at h
      · cases h
        have hneg : ordNeg opts = false := by rw [hordeq]; simp; omega
        simp [hneg]
      · exact absurd h (by simp)
  · rw [if_neg h0] at h
    split at h
    · exact absurd h (by simp)
    · exact absurd h (by simp)
    · split at h
      · exact absurd h (by simp)
      · cases h
        have hneg : ordNeg opts = true := by rw [hordeq]; simp; omega
        have hkn : isKnown "firstname" = true := by decide
        simp only [hneg, hkn, eq_self_iff_true, and_true]
        simp only [cacheLen]
        split_ifs <;> simp_all

theorem lastname_cacheLen {rng : Rng} {opts : Opts} {s : GState} {v : String} {s2 : GState}
    (h : lastname rng opts s = .ok (v, s2)) :
    ∀ cmd, cacheLen s2.oc cmd = cacheLen s.oc cmd +
      (if cmd = "lastname" ∧ isKnown "lastname" = true ∧ ordNeg opts = true then 1
        else 0) := by
  intro cmd
  have hget : ∀ oc : ObjectCache, getStrCache oc "lastname" = oc.lastname := fun _ => rfl
  have hset : ∀ (oc : ObjectCache) l, setStrCache oc "lastname" l = { oc with lastname := l } :=
    fun _ _ => rfl
  unfold lastname nameGen at h
  simp only [hget, hset] at h
  cases hord : getIntOpt opts "ordinal" with
  | none => rw [hord] at h; exact absurd h (by simp)
  | some ord =>
  rw [hord] at h
  dsimp only at h
  have hordeq : ordNeg opts = decide (ord < 0) := by
    unfold ordNeg; rw [hord]
  by_cases h0 : 0 ≤ ord
  · rw [if_pos h0] at h
    split at h
    · exact absurd h (by simp)
    · split at h
      · cases h
        have hneg : ordNeg opts = false := by rw [hordeq]; simp; omega
        simp [hneg]
      · exact absurd h (by simp)
  · rw [if_neg h0] at h
    split at h
    · exact absurd h (by simp)
    · exact absurd h (by simp)
    · split at h
      · exact absurd h (by simp)
      · cases h
        have hneg : ordNeg opts = true := by rw [hordeq]; simp; omega
        have hkn : isKnown "lastname" = true := by decide
        simp only [hneg, hkn, eq_self_iff_true, and_true]
        simp only [cacheLen]
        split_ifs <;> simp_all

theorem resolveWord_cacheLen {rng : Rng} {word : String} {opts : Opts} {s : GState}
    {v : String} {s2 : GState} (h : resolveWord rng word opts s = .ok (v, s2)) :
    ∀ cmd, cacheLen s2.oc cmd = cacheLen s.oc cmd +
      (if cmd = word ∧ isKnown word = true ∧ ordNeg opts = true then 1 else 0) := by
  by_cases h1 : word = "guid"
  · subst h1; exact guid_cacheLen h
  by_cases h2 : word = "int"
  · subst h2
    have h' : integer rng opts s = .ok (v, s2) := by
      rw [← h]; unfold resolveWord; rw [if_neg (by decide), if_pos rfl]
    exact integer_cacheLen h'
  by_cases h3 : word = "now"
  · subst h3
    have h' : nowGen rng opts s = .ok (v, s2) := by
      rw [← h]; unfold resolveWord
      rw [if_neg (by decide), if_neg (by decide), if_pos rfl]
    exact now_cacheLen h'
  by_cases h4 : word = "time"
  · subst h4
    have h' : datetime rng opts s = .ok (v, s2) := by
      rw [← h]; unfold resolveWord
      rw [if_neg (by decide), if_neg (by decide), if_neg (by decide), if_pos rfl]
    exact datetime_cacheLen h'
  by_cases h5 : word = "float"
  · subst h5
    have h' : floatGen rng opts s = .ok (v, s2) := by
      rw [← h]; unfold resolveWord
      rw [if_neg (by decide), if_neg (by decide), if_neg (by decide), if_neg (by decide),
        if_pos rfl]
    exact float_cacheLen h'
  by_cases h6 : word = "unicode"
  · subst h6
    have h' : unicode rng opts s = .ok (v, s2) := by
      rw [← h]; unfold resolveWord
      rw [if_neg (by decide), if_neg (by decide), if_neg (by decide), if_neg (by decide),
        if_neg (by decide), if_pos rfl]
    exact unicode_cacheLen h'
  by_cases h7 : word = "country"
  · subst h7
    have h' : country rng opts s = .ok (v, s2) := by
      rw [← h]; unfold resolveWord
      rw [if_neg (by decide), if_neg (by decide), if_neg (by decide), if_neg (by decide),
        if_neg (by decide), if_neg (by decide), if_pos rfl]
    exact country_cacheLen h'
  by_cases h8 : word = "firstname"
  · subst h8
    have h' : firstname rng opts s = .ok (v, s2) := by
      rw [← h]; unfold resolveWord
      rw [if_neg (by decide), if_neg (by decide), if_neg (by decide), if_neg (by decide),
        if_neg (by decide), if_neg (by decide), if_neg (by decide), if_pos rfl]
    exact firstname_cacheLen h'
  by_cases h9 : word = "lastname"
  · subst h9
    have h' : lastname rng opts s = .ok (v, s2) := by
      rw [← h]; unfold resolveWord
      rw [if_neg (by decide), if_neg (by decide), if_neg (by decide), if_neg (by decide),
        if_neg (by decide), if_neg (by decide), if_neg (by decide), if_neg (by decide),
        if_pos rfl]
    exact lastname_cacheLen h'
  · intro cmd
    unfold resolveWord at h
    rw [if_neg h1, if_neg h2, if_neg h3, if_neg h4, if_neg h5, if_neg h6, if_neg h7,
      if_neg h8, if_neg h9] at h
    cases h
    have hm : word ∉ knownCommands := by
      simp [knownCommands, h1, h2, h3, h4, h5, h6, h7, h8, h9]
    have hkn : isKnown word = false := by simp [isKnown, hm]
    simp [hkn]

theorem execStep_cacheLen {rng : Rng} {st : Step} {s : GState} {v : String} {s2 : GState}
    (h : execStep rng st s = .ok (v, s2)) :
    ∀ cmd, cacheLen s2.oc cmd = cacheLen s.oc cmd + stepGen st cmd := by
  intro cmd
  cases st with
  | literal t =>
    cases h
    simp [stepGen]
  | invocation w o =>
    simp only [stepGen]
    exact resolveWord_cacheLen h cmd

/-- C8: after a pass (or any prefix of one, executed from any starting
state) completes without failure, every recognized command's cache sequence
has grown by exactly the number of generate-fresh (negative-ordinal)
invocations of that command among the executed steps: fresh invocations
append exactly one value, ordinal replays append nothing. -/
theorem C8_cache_length_invariant :
    ∀ (rng : Rng) (ss : List Step) (s : GState) (out : String) (s2 : GState),
      execSteps rng ss s = (out, s2, none) →
      ∀ cmd, cacheLen s2.oc cmd = cacheLen s.oc cmd + countGen ss cmd := by
  intro rng ss
  induction ss with
  | nil =>
    intro s out s2 h cmd
    simp only [execSteps, Prod.mk.injEq] at h
    obtain ⟨-, h2, -⟩ := h
    subst h2
    simp [countGen]
  | cons hd tl ih =>
    intro s out s2 h cmd
    simp only [execSteps] at h
    cases hex : execStep rng hd s with
    | ok ts =>
      obtain ⟨t, s1⟩ := ts
      rw [hex] at h
      dsimp only at h
      rcases htl : execSteps rng tl s1 with ⟨o2, s3, f2⟩
      rw [htl] at h
      simp only [Prod.mk.injEq] at h
      obtain ⟨-, h2, h3⟩ := h
      subst h2
      subst h3
      have ha := execStep_cacheLen hex cmd
      have hb := ih s1 o2 s3 htl cmd
      simp only [countGen]
      omega
    | failed e =>
      rw [hex] at h
      simp at h
    | crash m =>
      rw [hex] at h
      simp at h

/-- C8 witness: the invariant applied to a one-step pass — a fresh `guid`
invocation executed from the empty cache under the concrete oracle grows the
`guid` sequence from `0` to `1`. -/
theorem C8_cache_length_invariant_witness :
    cacheLen (ObjectCache.mk ["00000000-0000-4000-8000-000000000000"] [] [] [] [] [] [] [] [] [])
        "guid" =
      cacheLen newObjectCache "guid" +
        countGen [Step.invocation "guid" [("ordinal", "-1")]] "guid" :=
  C8_cache_length_invariant rngZero [Step.invocation "guid" [("ordinal", "-1")]]
    ⟨newObjectCache, 0⟩ "00000000-0000-4000-8000-000000000000"
    ⟨ObjectCache.mk ["00000000-0000-4000-8000-000000000000"] [] [] [] [] [] [] [] [] [], 1⟩
    (by decide) "guid"

end Moldova
